import Mathlib

/-!
Shallow embedding of the claim data model of the `jwt` repository
(`types.go`).  Go methods returning `error` become Lean functions
returning `Option String` (with `none` for a `nil` error), and the
external collaborators — `DecodeActivationClaims`, `DecodeGeneric` and
`nkeys.IsValidPublicAccountKey` — become explicit function parameters,
since the spec treats them as injected dependencies outside this core.
-/

set_option autoImplicit false

namespace NatsJwt

abbrev ImportExportType := String

def ImportExportTypeStream : ImportExportType := "stream"

def ImportExportTypeService : ImportExportType := "service"

structure Import where
  «Type» : ImportExportType := ""
  Account : String := ""
  Subject : String := ""
  To : String := ""
  Pref : String := ""
  deriving DecidableEq, Repr

/-- `Import.Valid` from `types.go`: the type must be `service` or `stream`. -/
def Import.Valid (a : Import) : Option String :=
  if a.«Type» ≠ ImportExportTypeService ∧ a.«Type» ≠ ImportExportTypeStream then
    some ("import type \"" ++ a.«Type» ++ "\" is invalid")
  else
    none

structure Limits where
  Max : Int := 0
  Payload : Int := 0
  Src : String := ""
  Times : List Int := []
  deriving DecidableEq, Repr

structure OperatorLimits where
  Subs : Int := 0
  Conn : Int := 0
  Maps : Int := 0
  deriving DecidableEq, Repr

structure Export where
  «Type» : ImportExportType := ""
  Subject : String := ""
  deriving DecidableEq, Repr

/-- `Export.Valid` from `types.go`: type enumeration first, then non-empty subject. -/
def Export.Valid (e : Export) : Option String :=
  if e.«Type» ≠ ImportExportTypeService ∧ e.«Type» ≠ ImportExportTypeStream then
    some ("export type \"" ++ e.«Type» ++ "\" is invalid")
  else if e.Subject = "" then
    some ("export subject is empty")
  else
    none

structure Activation where
  Exports : List Export := []
  limits : Limits := {}
  operatorLimits : OperatorLimits := {}
  deriving DecidableEq, Repr

/-- The export-validation loop of `Activation.Valid`, carrying the running index
`i` of Go's `for i, t := range a.Exports`. -/
def validateExports : Nat → List Export → Option String
  | _, [] => none
  | i, t :: rest =>
    match Export.Valid t with
    | some err => some ("error validating activation (index " ++ toString i ++ "):" ++ err)
    | none => validateExports (i + 1) rest

/-- `Activation.Valid` from `types.go`. -/
def Activation.Valid (a : Activation) : Option String :=
  validateExports 0 a.Exports

/-- Modelled from the spec: the payload produced by the external
activation-decode collaborator `decodeActivation(token)`; this core reads
only its `Name`, but it carries an activation body (`DecodeActivationClaims`
and the `ActivationClaims` shape are not part of `src/`). -/
structure ActivationClaims where
  Name : String := ""
  activation : Activation := {}
  deriving DecidableEq, Repr

structure Account where
  Imports : List Import := []
  Act : List String := []
  deriving DecidableEq, Repr

/-- `Account.AppendActivation` from `types.go`. -/
def Account.AppendActivation (a : Account) (act : String) : Account :=
  { a with Act := a.Act ++ [act] }

/-- The decode loop of `Account.Activations`, carrying the running index `i`
of Go's `for i, s := range a.Act`; `dec` is the external
`DecodeActivationClaims` collaborator. -/
def decodeActs (dec : String → Except String ActivationClaims) :
    Nat → List String → Except String (List ActivationClaims)
  | _, [] => Except.ok []
  | i, s :: rest =>
    match dec s with
    | Except.error err =>
        Except.error ("error decoding activation [" ++ toString i ++ "]: " ++ err)
    | Except.ok ac =>
        match decodeActs dec (i + 1) rest with
        | Except.error e => Except.error e
        | Except.ok buf => Except.ok (ac :: buf)

/-- `Account.Activations` from `types.go`, with the external decoder passed in. -/
def Account.Activations (dec : String → Except String ActivationClaims)
    (a : Account) : Except String (List ActivationClaims) :=
  decodeActs dec 0 a.Act

/-- The import-resolution loop of `Account.Valid`: `k` is
`nkeys.IsValidPublicAccountKey` and `names` the contents of `tokenMap`. -/
def checkImports (k : String → Bool) (names : List String) : List Import → Option String
  | [] => none
  | t :: rest =>
    if ¬ k t.Account ∧ ¬ names.contains t.Account then
      some ("import references account \"" ++ t.Account ++
        "\" - but it is not an account pk nor an activation token name")
    else
      checkImports k names rest

/-- `Account.Valid` from `types.go`: decode all activations, build the name
lookup, then resolve every import. -/
def Account.Valid (k : String → Bool) (dec : String → Except String ActivationClaims)
    (a : Account) : Option String :=
  match Account.Activations dec a with
  | Except.error err => some err
  | Except.ok activations =>
    let tokenMap := activations.map (fun t => t.Name)
    checkImports k tokenMap a.Imports

abbrev StringList := List String

/-- `StringList.contains` from `types.go` (lowercase `contains` in the source). -/
def StringList.containsStr (u : StringList) (p : String) : Bool :=
  match u with
  | [] => false
  | t :: rest => if t = p then true else StringList.containsStr rest p

/-- One iteration of the `Add` loop. -/
def StringList.addOne (u : StringList) (v : String) : StringList :=
  if ¬ StringList.containsStr u v ∧ v ≠ "" then u ++ [v] else u

/-- `StringList.Add` from `types.go` (variadic: the values come as a list). -/
def StringList.Add (u : StringList) (p : List String) : StringList :=
  p.foldl StringList.addOne u

/-- One iteration of the `Remove` loop: drop the first occurrence of `v`. -/
def StringList.removeOne (u : StringList) (v : String) : StringList :=
  match u with
  | [] => []
  | t :: rest => if t = v then rest else t :: StringList.removeOne rest v

/-- `StringList.Remove` from `types.go` (variadic: the values come as a list). -/
def StringList.Remove (u : StringList) (p : List String) : StringList :=
  p.foldl StringList.removeOne u

structure Permission where
  Allow : StringList := []
  Deny : StringList := []
  deriving DecidableEq, Repr

structure Permissions where
  Pub : Permission := {}
  Sub : Permission := {}
  deriving DecidableEq, Repr

/-- `Permissions.Valid` from `types.go`: always `nil`. -/
def Permissions.Valid (_u : Permissions) : Option String :=
  none

structure Identity where
  ID : String := ""
  Proof : String := ""
  deriving DecidableEq, Repr

structure Operator where
  Identities : List Identity := []
  deriving DecidableEq, Repr

/-- `Operator.Valid` from `types.go`: always `nil`. -/
def Operator.Valid (_u : Operator) : Option String :=
  none

structure Cluster where
  Trust : List String := []
  Accounts : List String := []
  AccountURL : String := ""
  OperatorURL : String := ""
  deriving DecidableEq, Repr

structure Server where
  permissions : Permissions := {}
  Cluster : String := ""
  deriving DecidableEq, Repr

/-- `Server.Valid`: Go promotes `Valid` from the embedded `Permissions`. -/
def Server.Valid (s : Server) : Option String :=
  Permissions.Valid s.permissions

structure User where
  permissions : Permissions := {}
  limits : Limits := {}
  deriving DecidableEq, Repr

/-- `User.Valid`: Go promotes `Valid` from the embedded `Permissions`. -/
def User.Valid (u : User) : Option String :=
  Permissions.Valid u.permissions

/-- Modelled from the spec: the payload produced by the external
generic-decode collaborator `decodeGeneric(token)` — "claims with at least
an `ID: string` field" (`DecodeGeneric` is not part of `src/`). -/
structure GenericClaims where
  ID : String := ""
  deriving DecidableEq, Repr

structure Revocation where
  Revoked : String := ""
  JWT : String := ""
  Reason : String := ""
  deriving DecidableEq, Repr

/-- `Revocation.Valid` from `types.go`, with the external `DecodeGeneric`
collaborator passed in. -/
def Revocation.Valid (dg : String → Except String GenericClaims)
    (u : Revocation) : Option String :=
  if u.JWT = "" then
    some ("error validating revocation token, no JWT to revoke")
  else if u.Revoked = "" then
    some ("error validating revocation token, no revoked id specified")
  else
    match dg u.JWT with
    | Except.error err => some err
    | Except.ok theJWT =>
      if theJWT.ID ≠ u.Revoked then
        some ("error validating revocation token, id in the child JWT doesn't match revoked id")
      else
        none

/-! ### Helper lemmas -/

theorem validateExports_all_ok (l : List Export) (i : Nat)
    (h : ∀ e ∈ l, Export.Valid e = none) : validateExports i l = none := by
  induction l generalizing i with
  | nil => rfl
  | cons t rest ih =>
    have ht : Export.Valid t = none := h t (by simp)
    simp only [validateExports, ht]
    exact ih (i + 1) (fun e he => h e (by simp [he]))

theorem validateExports_failfast (pre : List Export) (t : Export) (post : List Export)
    (err : String) (i : Nat)
    (hpre : ∀ e ∈ pre, Export.Valid e = none) (ht : Export.Valid t = some err) :
    validateExports i (pre ++ t :: post) =
      some ("error validating activation (index " ++ toString (i + pre.length) ++ "):" ++ err) := by
  induction pre generalizing i with
  | nil => simp [validateExports, ht]
  | cons e rest ih =>
    have he : Export.Valid e = none := hpre e (by simp)
    have hlen : (i + 1) + rest.length = i + (e :: rest).length := by simp; omega
    simp only [List.cons_append, validateExports, he]
    have hrw : rest.append (t :: post) = rest ++ t :: post := rfl
    rw [hrw, ih (i + 1) (fun x hx => hpre x (by simp [hx])), hlen]

/-! ### Claim theorems: Export, Import, Activation -/

/-- C3: `Export.Valid` returns `nil` iff the type is exactly `stream` or
`service` and the subject is non-empty; when the type is invalid the
invalid-type error is returned regardless of the subject (in particular an
export with an invalid type and an empty subject gets the type error, not
the empty-subject error). -/
theorem export_valid_characterization :
    (∀ e : Export, Export.Valid e = none ↔
      ((e.«Type» = ImportExportTypeStream ∨ e.«Type» = ImportExportTypeService) ∧
        e.Subject ≠ "")) ∧
    (∀ e : Export, e.«Type» ≠ ImportExportTypeStream → e.«Type» ≠ ImportExportTypeService →
      Export.Valid e = some ("export type \"" ++ e.«Type» ++ "\" is invalid")) := by
  constructor
  · intro e
    simp only [Export.Valid]
    split
    · rename_i h
      constructor
      · intro he; exact absurd he (by simp)
      · rintro ⟨hty, _⟩
        rcases hty with h1 | h1 <;> simp [h1] at h
    · split
      · rename_i h hs
        constructor
        · intro he; exact absurd he (by simp)
        · rintro ⟨_, hsub⟩; exact absurd hs hsub
      · rename_i h hs
        rw [Classical.not_and_iff_or_not_not] at h
        constructor
        · intro _
          refine ⟨?_, hs⟩
          rcases h with h | h
          · exact Or.inr (Classical.not_not.mp h)
          · exact Or.inl (Classical.not_not.mp h)
        · intro _; rfl
  · intro e h1 h2
    simp [Export.Valid, h1, h2]

/-- Witness for C3 at a concrete export. -/
theorem export_valid_characterization_witness :
    Export.Valid { «Type» := "stream", Subject := "foo" } = none :=
  (export_valid_characterization.1 { «Type» := "stream", Subject := "foo" }).mpr
    ⟨Or.inl rfl, by decide⟩

/-- C6: `Import.Valid` returns `nil` iff the type is exactly `stream` or
`service`; the `Account`, `Subject`, `To` and `Prefix` fields have no effect
on the result (two imports with the same type validate identically). -/
theorem import_valid_characterization :
    (∀ i : Import, Import.Valid i = none ↔
      (i.«Type» = ImportExportTypeStream ∨ i.«Type» = ImportExportTypeService)) ∧
    (∀ i j : Import, i.«Type» = j.«Type» → Import.Valid i = Import.Valid j) := by
  constructor
  · intro i
    simp only [Import.Valid]
    split
    · rename_i h
      constructor
      · intro he; exact absurd he (by simp)
      · rintro (h1 | h1) <;> simp [h1] at h
    · rename_i h
      rw [Classical.not_and_iff_or_not_not] at h
      constructor
      · intro _
        rcases h with h | h
        · exact Or.inr (Classical.not_not.mp h)
        · exact Or.inl (Classical.not_not.mp h)
      · intro _; rfl
  · intro i j hty
    simp [Import.Valid, hty]

/-- Witness for C6 at a concrete import. -/
theorem import_valid_characterization_witness :
    Import.Valid { «Type» := "service", Account := "A", Subject := "s" } = none :=
  (import_valid_characterization.1 { «Type» := "service", Account := "A", Subject := "s" }).mpr
    (Or.inr rfl)

/-- C4: `Activation.Valid` validates its exports in order; with no exports it
returns `nil`, with all exports valid it returns `nil`, and on the first
failing export (at zero-based position `pre.length`) it returns an error
embedding that index and the underlying error, whatever comes after. -/
theorem activation_valid_characterization :
    (∀ a : Activation, a.Exports = [] → Activation.Valid a = none) ∧
    (∀ a : Activation, (∀ e ∈ a.Exports, Export.Valid e = none) → Activation.Valid a = none) ∧
    (∀ (a : Activation) (pre : List Export) (t : Export) (post : List Export) (err : String),
      a.Exports = pre ++ t :: post →
      (∀ e ∈ pre, Export.Valid e = none) →
      Export.Valid t = some err →
      Activation.Valid a =
        some ("error validating activation (index " ++ toString pre.length ++ "):" ++ err)) := by
  refine ⟨?_, ?_, ?_⟩
  · intro a h
    simp [Activation.Valid, h, validateExports]
  · intro a h
    exact validateExports_all_ok a.Exports 0 h
  · intro a pre t post err hex hpre ht
    have := validateExports_failfast pre t post err 0 hpre ht
    simp only [Activation.Valid, hex, this, Nat.zero_add]

/-- Witness for C4: the spec's scenario — a valid service export followed by a
bogus one fails referencing index 1. -/
theorem activation_valid_characterization_witness :
    Activation.Valid
        { Exports := [{ «Type» := "service", Subject := "foo" },
                      { «Type» := "bogus", Subject := "bar" }] } =
      some ("error validating activation (index 1):export type \"bogus\" is invalid") :=
  activation_valid_characterization.2.2
    { Exports := [{ «Type» := "service", Subject := "foo" },
                  { «Type» := "bogus", Subject := "bar" }] }
    [{ «Type» := "service", Subject := "foo" }]
    { «Type» := "bogus", Subject := "bar" }
    [] "export type \"bogus\" is invalid" rfl (by decide) (by decide)

/-! ### Claim theorem: Revocation -/

/-- C2: `Revocation.Valid` checks, in order: empty `JWT`, empty `Revoked`,
decode failure (propagating the decoder's error), ID mismatch; only then
does it return `nil`.  The empty-field checks run for any decoder, i.e.
before any decode, and the mismatch check only after a successful decode. -/
theorem revocation_valid_order (dg : String → Except String GenericClaims) (u : Revocation) :
    (u.JWT = "" →
      Revocation.Valid dg u = some ("error validating revocation token, no JWT to revoke")) ∧
    (u.JWT ≠ "" → u.Revoked = "" →
      Revocation.Valid dg u =
        some ("error validating revocation token, no revoked id specified")) ∧
    (∀ e, u.JWT ≠ "" → u.Revoked ≠ "" → dg u.JWT = Except.error e →
      Revocation.Valid dg u = some e) ∧
    (∀ g, u.JWT ≠ "" → u.Revoked ≠ "" → dg u.JWT = Except.ok g → g.ID ≠ u.Revoked →
      Revocation.Valid dg u =
        some ("error validating revocation token, id in the child JWT doesn't match revoked id")) ∧
    (∀ g, u.JWT ≠ "" → u.Revoked ≠ "" → dg u.JWT = Except.ok g → g.ID = u.Revoked →
      Revocation.Valid dg u = none) := by
  refine ⟨?_, ?_, ?_, ?_, ?_⟩
  · intro h; simp [Revocation.Valid, h]
  · intro h1 h2; simp [Revocation.Valid, h1, h2]
  · intro e h1 h2 hdec; simp [Revocation.Valid, h1, h2, hdec]
  · intro g h1 h2 hdec hne; simp [Revocation.Valid, h1, h2, hdec, hne]
  · intro g h1 h2 hdec heq; simp [Revocation.Valid, h1, h2, hdec, heq]

/-- A concrete stand-in for the external generic decoder, for witnesses. -/
def dgStub : String → Except String GenericClaims := fun s =>
  if s = "tok-abc" then Except.ok { ID := "abc" } else Except.error ("malformed token")

/-- Witness for C2: the spec's example — a revocation whose JWT decodes to
ID `abc` and whose revoked id is `abc` validates to `nil`. -/
theorem revocation_valid_order_witness :
    Revocation.Valid dgStub { Revoked := "abc", JWT := "tok-abc" } = none :=
  (revocation_valid_order dgStub { Revoked := "abc", JWT := "tok-abc" }).2.2.2.2
    { ID := "abc" } (by decide) (by decide) (by simp [dgStub]) rfl

/-! ### StringList lemmas -/

theorem containsStr_iff_mem (l : StringList) (v : String) :
    StringList.containsStr l v = true ↔ v ∈ l := by
  induction l with
  | nil => simp [StringList.containsStr]
  | cons t rest ih =>
    simp only [StringList.containsStr]
    split
    · rename_i h; simp [h]
    · rename_i h
      rw [ih]
      constructor
      · intro hm; exact List.mem_cons_of_mem t hm
      · intro hm
        rcases List.mem_cons.mp hm with h1 | h1
        · exact absurd h1.symm h
        · exact h1

theorem removeOne_of_not_mem (l : StringList) (v : String) (h : v ∉ l) :
    StringList.removeOne l v = l := by
  induction l with
  | nil => rfl
  | cons t rest ih =>
    simp only [StringList.removeOne]
    have hne : t ≠ v := fun he => h (by simp [he])
    rw [if_neg hne, ih (fun hm => h (List.mem_cons_of_mem t hm))]

theorem not_mem_removeOne_of_nodup (l : StringList) (v : String) (h : l.Nodup) :
    v ∉ StringList.removeOne l v := by
  induction l with
  | nil => simp [StringList.removeOne]
  | cons t rest ih =>
    rcases List.nodup_cons.mp h with ⟨htr, hrest⟩
    simp only [StringList.removeOne]
    split
    · rename_i he; subst he; exact htr
    · rename_i hne
      intro hm
      rcases List.mem_cons.mp hm with h1 | h1
      · exact hne h1.symm
      · exact ih hrest h1

/-! ### Claim theorems: StringList -/

/-- C7 counterexample: on the list `["a", "a"]` (which violates the spec's
no-duplicates StringList invariant) the value `"a"` is present, yet after
`Remove("a")` — which drops only the first occurrence — it is still
contained, contradicting the claim as stated for *every* StringList. -/
theorem stringlist_remove_counterexample :
    StringList.containsStr ["a", "a"] "a" = true ∧
    StringList.containsStr (StringList.Remove ["a", "a"] ["a"]) "a" = true := by
  decide

/-- C7 (amended): for a StringList with no duplicate entries — the invariant
the spec requires of StringLists — removing a value leaves a list that no
longer contains it; and removing an absent value leaves any list unchanged. -/
theorem stringlist_remove_spec (l : StringList) (v : String) :
    (l.Nodup → StringList.containsStr (StringList.Remove l [v]) v = false) ∧
    (StringList.containsStr l v = false → StringList.Remove l [v] = l) := by
  have hfold : StringList.Remove l [v] = StringList.removeOne l v := rfl
  constructor
  · intro hnd
    rw [hfold]
    by_contra h
    have : StringList.containsStr (StringList.removeOne l v) v = true := by
      cases hc : StringList.containsStr (StringList.removeOne l v) v
      · exact absurd hc h
      · rfl
    exact not_mem_removeOne_of_nodup l v hnd ((containsStr_iff_mem _ v).mp this)
  · intro habs
    rw [hfold]
    apply removeOne_of_not_mem
    intro hm
    rw [(containsStr_iff_mem l v).mpr hm] at habs
    exact Bool.noConfusion habs

/-- Witness for C7 (amended) at a concrete duplicate-free list. -/
theorem stringlist_remove_spec_witness :
    StringList.containsStr (StringList.Remove ["a", "b"] ["a"]) "a" = false :=
  (stringlist_remove_spec ["a", "b"] "a").1 (by decide)

/-- C8 counterexample: adding the empty string twice to the empty list leaves
a list with zero occurrences of it, not exactly one — `Add` silently drops
empty values, so the claim fails for `v = ""`. -/
theorem stringlist_add_counterexample :
    List.count "" (StringList.Add (StringList.Add ([] : StringList) [""]) [""]) = 0 := by
  decide

/-- C8 (amended): for a non-empty value `v` and a list holding at most one
occurrence of `v` (as any list satisfying the StringList no-duplicates
invariant does), adding `v` twice leaves exactly one occurrence; moreover
`Add` is a no-op on present or empty values and otherwise appends at the
end, preserving insertion order, and never produces an error. -/
theorem stringlist_add_spec (l : StringList) (v : String) :
    (v ≠ "" → List.count v l ≤ 1 →
      List.count v (StringList.Add (StringList.Add l [v]) [v]) = 1) ∧
    (StringList.containsStr l v = true ∨ v = "" → StringList.Add l [v] = l) ∧
    (StringList.containsStr l v = false → v ≠ "" → StringList.Add l [v] = l ++ [v]) := by
  have hfold : ∀ u : StringList, StringList.Add u [v] = StringList.addOne u v :=
    fun u => rfl
  have hnoop : ∀ u : StringList, StringList.containsStr u v = true ∨ v = "" →
      StringList.addOne u v = u := by
    intro u h
    unfold StringList.addOne
    rcases h with h | h
    · rw [if_neg]; intro hc; rw [h] at hc; exact hc.1 rfl
    · rw [if_neg]; intro hc; exact hc.2 h
  have happ : ∀ u : StringList, StringList.containsStr u v = false → v ≠ "" →
      StringList.addOne u v = u ++ [v] := by
    intro u h hv
    unfold StringList.addOne
    rw [if_pos ⟨by rw [h]; exact Bool.noConfusion, hv⟩]
  refine ⟨?_, ?_, ?_⟩
  · intro hv hcnt
    rw [hfold, hfold]
    cases hc : StringList.containsStr l v with
    | true =>
      have hmem : v ∈ l := (containsStr_iff_mem l v).mp hc
      have hone : List.count v l = 1 := by
        have := List.count_pos_iff.mpr hmem
        omega
      rw [hnoop l (Or.inl hc), hnoop l (Or.inl hc), hone]
    | false =>
      have hnm : v ∉ l := fun hm => by
        rw [(containsStr_iff_mem l v).mpr hm] at hc; exact Bool.noConfusion hc
      rw [happ l hc hv]
      have hc2 : StringList.containsStr (l ++ [v]) v = true := by
        rw [containsStr_iff_mem]; simp
      rw [hnoop _ (Or.inl hc2)]
      have h0 : List.count v l = 0 := List.count_eq_zero.mpr hnm
      simp [List.count_append, h0]
  · intro h; rw [hfold]; exact hnoop l h
  · intro h hv; rw [hfold]; exact happ l h hv

/-- Witness for C8 (amended): adding `"a"` twice to `["b"]` yields exactly one
occurrence of `"a"`. -/
theorem stringlist_add_spec_witness :
    List.count "a" (StringList.Add (StringList.Add ["b"] ["a"]) ["a"]) = 1 :=
  (stringlist_add_spec ["b"] "a").1 (by decide) (by decide)

/-! ### Account lemmas -/

theorem checkImports_none_iff (k : String → Bool) (names : List String) (l : List Import) :
    checkImports k names l = none ↔
      ∀ t ∈ l, k t.Account = true ∨ names.contains t.Account = true := by
  induction l with
  | nil => simp [checkImports]
  | cons t rest ih =>
    simp only [checkImports]
    split
    · rename_i h
      constructor
      · intro hc; exact absurd hc (by simp)
      · intro hall
        rcases hall t (by simp) with h1 | h1
        · exact absurd h1 (by simpa using h.1)
        · exact absurd h1 (by simpa using h.2)
    · rename_i h
      have hhead : k t.Account = true ∨ names.contains t.Account = true := by
        by_cases hk : k t.Account = true
        · exact Or.inl hk
        · by_cases hc : names.contains t.Account = true
          · exact Or.inr hc
          · exact absurd ⟨by simpa using hk, by simpa using hc⟩ h
      rw [ih]
      constructor
      · intro hrest x hx
        rcases List.mem_cons.mp hx with h1 | h1
        · subst h1; exact hhead
        · exact hrest x h1
      · intro hall x hx
        exact hall x (List.mem_cons_of_mem t hx)

theorem checkImports_failfast (k : String → Bool) (names : List String)
    (pre : List Import) (t : Import) (post : List Import)
    (hpre : ∀ s ∈ pre, k s.Account = true ∨ names.contains s.Account = true)
    (hk : k t.Account = false) (hc : names.contains t.Account = false) :
    checkImports k names (pre ++ t :: post) =
      some ("import references account \"" ++ t.Account ++
        "\" - but it is not an account pk nor an activation token name") := by
  induction pre with
  | nil =>
    simp only [List.nil_append, checkImports]
    rw [if_pos ⟨by simp [hk], by simpa using hc⟩]
  | cons s rest ih =>
    simp only [List.cons_append, checkImports]
    have hrw : rest.append (t :: post) = rest ++ t :: post := rfl
    rw [if_neg, hrw, ih (fun x hx => hpre x (List.mem_cons_of_mem s hx))]
    intro hcon
    rcases hpre s (by simp) with h1 | h1
    · exact hcon.1 (by simp [h1])
    · exact hcon.2 (by simpa using h1)

theorem decodeActs_failfast (dec : String → Except String ActivationClaims)
    (pre : List String) (s : String) (post : List String) (e : String) (i : Nat)
    (hpre : ∀ x ∈ pre, ∃ ac, dec x = Except.ok ac)
    (hs : dec s = Except.error e) :
    decodeActs dec i (pre ++ s :: post) =
      Except.error ("error decoding activation [" ++ toString (i + pre.length) ++ "]: " ++ e) := by
  induction pre generalizing i with
  | nil => simp [decodeActs, hs]
  | cons x rest ih =>
    obtain ⟨ac, hx⟩ := hpre x (by simp)
    have hlen : (i + 1) + rest.length = i + (x :: rest).length := by simp; omega
    simp only [List.cons_append, decodeActs, hx]
    have hrw : rest.append (s :: post) = rest ++ s :: post := rfl
    rw [hrw, ih (i + 1) (fun y hy => hpre y (by simp [hy])), hlen]

theorem decodeActs_map_name (dec dec' : String → Except String ActivationClaims)
    (xs : List String) (i : Nat)
    (h : ∀ s ∈ xs, Except.map ActivationClaims.Name (dec s) =
      Except.map ActivationClaims.Name (dec' s)) :
    Except.map (List.map ActivationClaims.Name) (decodeActs dec i xs) =
      Except.map (List.map ActivationClaims.Name) (decodeActs dec' i xs) := by
  induction xs generalizing i with
  | nil => rfl
  | cons s rest ih =>
    have hs := h s (by simp)
    have ihr := ih (i + 1) (fun x hx => h x (by simp [hx]))
    cases hds : dec s with
    | error e =>
      cases hds2 : dec' s with
      | error e2 =>
        rw [hds, hds2] at hs
        simp only [Except.map, Except.error.injEq] at hs
        simp [decodeActs, hds, hds2, Except.map, hs]
      | ok a2 =>
        rw [hds, hds2] at hs
        simp [Except.map] at hs
    | ok ac =>
      cases hds2 : dec' s with
      | error e2 =>
        rw [hds, hds2] at hs
        simp [Except.map] at hs
      | ok ac2 =>
        rw [hds, hds2] at hs
        simp only [Except.map, Except.ok.injEq] at hs
        have hname : ac.Name = ac2.Name := hs
        simp only [decodeActs, hds, hds2]
        cases hrec : decodeActs dec (i + 1) rest with
        | error e =>
          cases hrec2 : decodeActs dec' (i + 1) rest with
          | error e2 =>
            rw [hrec, hrec2] at ihr
            simp only [Except.map, Except.error.injEq] at ihr
            simp [Except.map, ihr]
          | ok buf2 =>
            rw [hrec, hrec2] at ihr
            simp [Except.map] at ihr
        | ok buf =>
          cases hrec2 : decodeActs dec' (i + 1) rest with
          | error e2 =>
            rw [hrec, hrec2] at ihr
            simp [Except.map] at ihr
          | ok buf2 =>
            rw [hrec, hrec2] at ihr
            simp only [Except.map, Except.ok.injEq] at ihr
            have hb : buf.map ActivationClaims.Name = buf2.map ActivationClaims.Name := ihr
            simp [Except.map, hname, hb]

/-! ### Claim theorems: Account -/

/-- C1: once every string in `Act` decodes (to the list `acts`),
`Account.Valid` returns `nil` iff every import's account is a valid public
account key or equals the `Name` of some decoded activation; and on the
first import that is neither, it fails with the unresolved-import-account
error naming that account value, whatever imports follow. -/
theorem account_valid_crossref (k : String → Bool)
    (dec : String → Except String ActivationClaims) (a : Account)
    (acts : List ActivationClaims)
    (hact : Account.Activations dec a = Except.ok acts) :
    (Account.Valid k dec a = none ↔
      ∀ t ∈ a.Imports, k t.Account = true ∨ t.Account ∈ acts.map ActivationClaims.Name) ∧
    (∀ pre t post, a.Imports = pre ++ t :: post →
      (∀ s ∈ pre, k s.Account = true ∨ s.Account ∈ acts.map ActivationClaims.Name) →
      k t.Account = false → t.Account ∉ acts.map ActivationClaims.Name →
      Account.Valid k dec a =
        some ("import references account \"" ++ t.Account ++
          "\" - but it is not an account pk nor an activation token name")) := by
  have hval : Account.Valid k dec a =
      checkImports k (acts.map ActivationClaims.Name) a.Imports := by
    simp [Account.Valid, hact]
  constructor
  · rw [hval, checkImports_none_iff]
    constructor
    · intro hall t ht
      rcases hall t ht with h1 | h1
      · exact Or.inl h1
      · exact Or.inr (by simpa using h1)
    · intro hall t ht
      rcases hall t ht with h1 | h1
      · exact Or.inl h1
      · exact Or.inr (by simpa using h1)
  · intro pre t post himp hpre hk hc
    rw [hval, himp]
    apply checkImports_failfast
    · intro s hsm
      rcases hpre s hsm with h1 | h1
      · exact Or.inl h1
      · exact Or.inr (by simpa using h1)
    · exact hk
    · simpa using hc

/-- A concrete stand-in for the external activation decoder, for witnesses:
`tokX` decodes to an activation named `X` whose body contains an export that
would itself fail validation. -/
def decStub : String → Except String ActivationClaims := fun s =>
  if s = "tokX" then
    Except.ok { Name := "X", activation := { Exports := [{ «Type» := "bogus", Subject := "" }] } }
  else
    Except.error ("malformed token")

/-- A never-valid stand-in for `nkeys.IsValidPublicAccountKey`. -/
def keyStub : String → Bool := fun _ => false

/-- Witness for C1: the spec's example — an account with one activation named
`X` and one import whose account is `X` is valid. -/
theorem account_valid_crossref_witness :
    Account.Valid keyStub decStub
      { Imports := [{ «Type» := "stream", Account := "X", Subject := "s" }],
        Act := ["tokX"] } = none :=
  (account_valid_crossref keyStub decStub
      { Imports := [{ «Type» := "stream", Account := "X", Subject := "s" }],
        Act := ["tokX"] }
      [{ Name := "X", activation := { Exports := [{ «Type» := "bogus", Subject := "" }] } }]
      (by simp [Account.Activations, decodeActs, decStub])).1.mpr
    (by intro t ht; simp at ht; subst ht; exact Or.inr (by simp))

/-- C5: `Account.Valid` (through `Account.Activations`) decodes the `Act`
entries in order and stops at the first failing decode (at zero-based
position `pre.length`), returning an error with that index and the
underlying decode error — whatever strings follow and whatever the imports
are (the conclusion holds for every import list and key predicate, and for
every decoder behaviour on the remaining entries). -/
theorem account_decode_failfast (k : String → Bool)
    (dec : String → Except String ActivationClaims) (a : Account)
    (pre : List String) (s : String) (post : List String) (e : String)
    (hact : a.Act = pre ++ s :: post)
    (hpre : ∀ x ∈ pre, ∃ ac, dec x = Except.ok ac)
    (hs : dec s = Except.error e) :
    Account.Activations dec a =
      Except.error ("error decoding activation [" ++ toString pre.length ++ "]: " ++ e) ∧
    Account.Valid k dec a =
      some ("error decoding activation [" ++ toString pre.length ++ "]: " ++ e) := by
  have h1 : Account.Activations dec a =
      Except.error ("error decoding activation [" ++ toString pre.length ++ "]: " ++ e) := by
    unfold Account.Activations
    rw [hact]
    have := decodeActs_failfast dec pre s post e 0 hpre hs
    simpa using this
  refine ⟨h1, ?_⟩
  simp [Account.Valid, h1]

/-- Witness for C5: the second of three tokens fails to decode; validation
reports index 1 and never reaches the third token or the (unresolvable)
import. -/
theorem account_decode_failfast_witness :
    Account.Valid keyStub decStub
        { Imports := [{ «Type» := "stream", Account := "nobody" }],
          Act := ["tokX", "bad", "alsobad"] } =
      some ("error decoding activation [1]: malformed token") :=
  (account_decode_failfast keyStub decStub
      { Imports := [{ «Type» := "stream", Account := "nobody" }],
        Act := ["tokX", "bad", "alsobad"] }
      ["tokX"] "bad" ["alsobad"] "malformed token" rfl
      (by
        intro x hx
        simp at hx
        subst hx
        exact ⟨{ Name := "X",
                 activation := { Exports := [{ «Type» := "bogus", Subject := "" }] } },
          by simp [decStub]⟩)
      (by simp [decStub])).2

/-- C9: `Account.Valid` never validates the decoded activations — it only
reads their names.  If every `Act` entry decodes and every import resolves,
the account is valid even when a decoded activation's body would fail its
own `Valid()`; and any two decoders agreeing on decode errors and decoded
names (but with arbitrarily different activation bodies) give
`Account.Valid` the same result. -/
theorem account_valid_ignores_bodies (k : String → Bool)
    (dec dec' : String → Except String ActivationClaims) (a : Account)
    (acts : List ActivationClaims)
    (hagree : ∀ s ∈ a.Act, Except.map ActivationClaims.Name (dec s) =
      Except.map ActivationClaims.Name (dec' s))
    (hact : Account.Activations dec a = Except.ok acts)
    (hres : ∀ t ∈ a.Imports, k t.Account = true ∨ t.Account ∈ acts.map ActivationClaims.Name) :
    Account.Valid k dec a = none ∧ Account.Valid k dec a = Account.Valid k dec' a := by
  have hval : Account.Valid k dec a =
      checkImports k (acts.map ActivationClaims.Name) a.Imports := by
    simp [Account.Valid, hact]
  have hnone : Account.Valid k dec a = none := by
    rw [hval, checkImports_none_iff]
    intro t ht
    rcases hres t ht with h1 | h1
    · exact Or.inl h1
    · exact Or.inr (by simpa using h1)
  refine ⟨hnone, ?_⟩
  have hmap := decodeActs_map_name dec dec' a.Act 0 hagree
  rw [show decodeActs dec 0 a.Act = Account.Activations dec a from rfl,
    show decodeActs dec' 0 a.Act = Account.Activations dec' a from rfl, hact] at hmap
  cases hact2 : Account.Activations dec' a with
  | error e2 =>
    rw [hact2] at hmap
    simp [Except.map] at hmap
  | ok acts2 =>
    rw [hact2] at hmap
    simp only [Except.map, Except.ok.injEq] at hmap
    have hnames : acts.map ActivationClaims.Name = acts2.map ActivationClaims.Name := hmap
    have hval2 : Account.Valid k dec' a =
        checkImports k (acts2.map ActivationClaims.Name) a.Imports := by
      simp [Account.Valid, hact2]
    rw [hval, hval2, hnames]

/-- A second activation-decoder stand-in agreeing with `decStub` on names but
decoding `tokX` to a different (valid) activation body. -/
def decStub2 : String → Except String ActivationClaims := fun s =>
  if s = "tokX" then
    Except.ok { Name := "X", activation := { Exports := [{ «Type» := "stream", Subject := "q" }] } }
  else
    Except.error ("malformed token")

/-- Witness for C9: the decoded activation of `tokX` has an export with a
bogus type and empty subject (its own `Valid()` would fail), yet the account
validates, and swapping in a decoder returning a different body changes
nothing. -/
theorem account_valid_ignores_bodies_witness :
    Account.Valid keyStub decStub
        { Imports := [{ «Type» := "service", Account := "X" }], Act := ["tokX"] } = none ∧
    Account.Valid keyStub decStub
        { Imports := [{ «Type» := "service", Account := "X" }], Act := ["tokX"] } =
      Account.Valid keyStub decStub2
        { Imports := [{ «Type» := "service", Account := "X" }], Act := ["tokX"] } :=
  account_valid_ignores_bodies keyStub decStub decStub2
    { Imports := [{ «Type» := "service", Account := "X" }], Act := ["tokX"] }
    [{ Name := "X", activation := { Exports := [{ «Type» := "bogus", Subject := "" }] } }]
    (by
      intro s hsm
      simp at hsm
      subst hsm
      simp [decStub, decStub2, Except.map])
    (by simp [Account.Activations, decodeActs, decStub])
    (by intro t ht; simp at ht; subst ht; exact Or.inr (by simp))

/-! ### State-passing embeddings for the frame claim

Go's validators take pointer receivers, so they could in principle write
through them.  The `Full` translations below thread the receiver through
every statement and loop of the corresponding Go body, returning it at each
`return` point, so that "the receiver is left unchanged" becomes a theorem
rather than a modelling assumption. -/

def Import.ValidFull (a : Import) : Import × Option String :=
  if a.«Type» ≠ ImportExportTypeService ∧ a.«Type» ≠ ImportExportTypeStream then
    (a, some ("import type \"" ++ a.«Type» ++ "\" is invalid"))
  else
    (a, none)

def Export.ValidFull (e : Export) : Export × Option String :=
  if e.«Type» ≠ ImportExportTypeService ∧ e.«Type» ≠ ImportExportTypeStream then
    (e, some ("export type \"" ++ e.«Type» ++ "\" is invalid"))
  else if e.Subject = "" then
    (e, some ("export subject is empty"))
  else
    (e, none)

def exportsLoopFull (a : Activation) : Nat → List Export → Activation × Option String
  | _, [] => (a, none)
  | i, t :: rest =>
    match Export.Valid t with
    | some err =>
        (a, some ("error validating activation (index " ++ toString i ++ "):" ++ err))
    | none => exportsLoopFull a (i + 1) rest

def Activation.ValidFull (a : Activation) : Activation × Option String :=
  exportsLoopFull a 0 a.Exports

def actsLoopFull (dec : String → Except String ActivationClaims) (a : Account) :
    Nat → List String → Account × Except String (List ActivationClaims)
  | _, [] => (a, Except.ok [])
  | i, s :: rest =>
    match dec s with
    | Except.error err =>
        (a, Except.error ("error decoding activation [" ++ toString i ++ "]: " ++ err))
    | Except.ok ac =>
        match actsLoopFull dec a (i + 1) rest with
        | (a1, Except.error e) => (a1, Except.error e)
        | (a1, Except.ok buf) => (a1, Except.ok (ac :: buf))

def Account.ActivationsFull (dec : String → Except String ActivationClaims)
    (a : Account) : Account × Except String (List ActivationClaims) :=
  actsLoopFull dec a 0 a.Act

def importsLoopFull (k : String → Bool) (names : List String) (a : Account) :
    List Import → Account × Option String
  | [] => (a, none)
  | t :: rest =>
    if ¬ k t.Account ∧ ¬ names.contains t.Account then
      (a, some ("import references account \"" ++ t.Account ++
        "\" - but it is not an account pk nor an activation token name"))
    else
      importsLoopFull k names a rest

def Account.ValidFull (k : String → Bool) (dec : String → Except String ActivationClaims)
    (a : Account) : Account × Option String :=
  match Account.ActivationsFull dec a with
  | (a1, Except.error err) => (a1, some err)
  | (a1, Except.ok activations) =>
    let tokenMap := activations.map (fun t => t.Name)
    importsLoopFull k tokenMap a1 a1.Imports

def Permissions.ValidFull (u : Permissions) : Permissions × Option String :=
  (u, none)

def Operator.ValidFull (u : Operator) : Operator × Option String :=
  (u, none)

def Server.ValidFull (s : Server) : Server × Option String :=
  match Permissions.ValidFull s.permissions with
  | (p1, r) => ({ s with permissions := p1 }, r)

def User.ValidFull (u : User) : User × Option String :=
  match Permissions.ValidFull u.permissions with
  | (p1, r) => ({ u with permissions := p1 }, r)

def Revocation.ValidFull (dg : String → Except String GenericClaims)
    (u : Revocation) : Revocation × Option String :=
  if u.JWT = "" then
    (u, some ("error validating revocation token, no JWT to revoke"))
  else if u.Revoked = "" then
    (u, some ("error validating revocation token, no revoked id specified"))
  else
    match dg u.JWT with
    | Except.error err => (u, some err)
    | Except.ok theJWT =>
      if theJWT.ID ≠ u.Revoked then
        (u, some ("error validating revocation token, id in the child JWT doesn't match revoked id"))
      else
        (u, none)

theorem exportsLoopFull_eq (a : Activation) (i : Nat) (l : List Export) :
    exportsLoopFull a i l = (a, validateExports i l) := by
  induction l generalizing i with
  | nil => rfl
  | cons t rest ih =>
    simp only [exportsLoopFull, validateExports]
    cases h : Export.Valid t with
    | some err => simp
    | none => simpa using ih (i + 1)

theorem actsLoopFull_eq (dec : String → Except String ActivationClaims)
    (a : Account) (i : Nat) (l : List String) :
    actsLoopFull dec a i l = (a, decodeActs dec i l) := by
  induction l generalizing i with
  | nil => rfl
  | cons s rest ih =>
    simp only [actsLoopFull, decodeActs]
    cases h : dec s with
    | error e => simp
    | ok ac =>
      rw [ih (i + 1)]
      cases h2 : decodeActs dec (i + 1) rest <;> simp

theorem importsLoopFull_eq (k : String → Bool) (names : List String)
    (a : Account) (l : List Import) :
    importsLoopFull k names a l = (a, checkImports k names l) := by
  induction l with
  | nil => rfl
  | cons t rest ih =>
    simp only [importsLoopFull, checkImports]
    split
    · rfl
    · exact ih

/-! ### Claim theorem: frame effect -/

/-- C10: every `Valid()` method — on `Import`, `Export`, `Activation`,
`Account`, `Permissions`, `Operator`, `Server`, `User`, `Revocation` — and
`Account.Activations` leaves its receiver exactly as it was, and its result
agrees with the pure validator; in particular `Account.Valid` does not
store the decoded `ActivationClaims` anywhere in the `Account`. -/
theorem valid_methods_frame :
    (∀ a : Import, Import.ValidFull a = (a, Import.Valid a)) ∧
    (∀ e : Export, Export.ValidFull e = (e, Export.Valid e)) ∧
    (∀ a : Activation, Activation.ValidFull a = (a, Activation.Valid a)) ∧
    (∀ (dec : String → Except String ActivationClaims) (a : Account),
      Account.ActivationsFull dec a = (a, Account.Activations dec a)) ∧
    (∀ (k : String → Bool) (dec : String → Except String ActivationClaims) (a : Account),
      Account.ValidFull k dec a = (a, Account.Valid k dec a)) ∧
    (∀ p : Permissions, Permissions.ValidFull p = (p, Permissions.Valid p)) ∧
    (∀ o : Operator, Operator.ValidFull o = (o, Operator.Valid o)) ∧
    (∀ s : Server, Server.ValidFull s = (s, Server.Valid s)) ∧
    (∀ u : User, User.ValidFull u = (u, User.Valid u)) ∧
    (∀ (dg : String → Except String GenericClaims) (u : Revocation),
      Revocation.ValidFull dg u = (u, Revocation.Valid dg u)) := by
  refine ⟨?_, ?_, ?_, ?_, ?_, ?_, ?_, ?_, ?_, ?_⟩
  · intro a
    unfold Import.ValidFull Import.Valid
    split <;> rfl
  · intro e
    unfold Export.ValidFull Export.Valid
    split
    · rfl
    · split <;> rfl
  · intro a
    exact exportsLoopFull_eq a 0 a.Exports
  · intro dec a
    exact actsLoopFull_eq dec a 0 a.Act
  · intro k dec a
    unfold Account.ValidFull Account.Valid
    rw [show Account.ActivationsFull dec a = (a, Account.Activations dec a) from
      actsLoopFull_eq dec a 0 a.Act]
    cases h : Account.Activations dec a with
    | error err => simp
    | ok activations => simpa using importsLoopFull_eq k _ a a.Imports
  · intro p; rfl
  · intro o; rfl
  · intro s; rfl
  · intro u; rfl
  · intro dg u
    unfold Revocation.ValidFull Revocation.Valid
    split
    · rfl
    · split
      · rfl
      · cases dg u.JWT with
        | error err => rfl
        | ok theJWT => by_cases hid : theJWT.ID = u.Revoked <;> simp [hid]

end NatsJwt
